import Mathlib

/-!
# Audio-Note: shallow embedding of the diarization core

This file embeds the two components of the Audio-Note repository that the
verified claims are about:

* `AudioProcessor` (src/js/exporter.js): the spectral-flux single-slot
  history (`prevFreqData`), `calculateSpectralFlux`, and
  `resetAudioFeatures`.
* `SpeakerDiarization` (the diarization module): `setMaxSpeakers`,
  `processDiarization`, `extractFeatureVectors`, `clusterFeatureVectors`,
  `kMeansClustering`, `assignSpeakersToSegments`, `optimizeSegments`,
  `extractUniqueSpeakers`, `updateProgress`.

JavaScript numbers are embedded as `ℚ` wherever the code only adds,
multiplies, divides and compares them.  The one square root
(`euclideanDistance`) is kept as a real number on top of the rational sum
of squares (`euclideanDistanceSq`); since the code only ever *compares*
distances (strict `<`, `Math.min`, `indexOf`), and `Real.sqrt` is strictly
monotone on nonnegatives, the comparisons are performed on the squared
values, justified by the bridge lemma `euclideanDistance_lt_iff`.
`Math.random()` centroid seeding is modelled by an injected index source
`pick : ℕ → ℕ` (reduced mod the vector count, exactly the range
`Math.floor(Math.random() * vectors.length)` can produce).
Event callbacks (`onProcessingStart` …) are modelled by returning the trace
of notifications the run would deliver.
-/

/-- The `features.bandEnergies` record produced by `calculateBandEnergies`. -/
structure BandEnergies where
  lowBand : ℚ
  midBand : ℚ
  highBand : ℚ
deriving Repr, DecidableEq

/-- The per-frame feature record built by `extractAudioFeatures`. -/
structure AudioFeatureSet where
  spectralCentroid : ℚ
  rms : ℚ
  spectralFlux : ℚ
  zeroCrossingRate : ℚ
  bandEnergies : BandEnergies
deriving Repr, DecidableEq

/-- One element of `audioFeatures`: `{ time, features }`
(exporter.js line 491). -/
structure FeatureFrame where
  time : ℚ
  features : AudioFeatureSet
deriving Repr, DecidableEq

/-- One element of the `extractFeatureVectors` output: `{ time, vector }`. -/
structure FeatureVector where
  time : ℚ
  vector : List ℚ
deriving Repr, DecidableEq

/-- One element of the `clusterFeatureVectors` output:
`{ time, vector, cluster }`, with `cluster = -1` meaning silence. -/
structure LabeledVector where
  time : ℚ
  vector : List ℚ
  cluster : Int
deriving Repr, DecidableEq

/-- A transcription chunk `{ text, timestamp: [start, end] }`. -/
structure TranscriptChunk where
  text : String
  timestamp : ℚ × ℚ
deriving Repr, DecidableEq

/-- The transcription input `{ text, chunks }`. -/
structure Transcription where
  text : String
  chunks : List TranscriptChunk
deriving Repr, DecidableEq

/-- An output segment `{ text, start, end, speaker }`
(`assignSpeakersToSegments` line 323). -/
structure Segment where
  text : String
  start : ℚ
  «end» : ℚ
  speaker : String
deriving Repr, DecidableEq

/-- The diarization result `{ text, segments, speakers }`
(`processDiarization` lines 79-83). -/
structure DiarizationResult where
  text : String
  segments : List Segment
  speakers : List String
deriving Repr, DecidableEq

/-! ## Segment optimization (`optimizeSegments`, part_000 lines 340-365) -/

/-- The in-place merge of `currentSegment` into `previousSegment`
(lines 357-358): `previousSegment.end = currentSegment.end;
previousSegment.text += ' ' + currentSegment.text`. -/
def mergeInto (previousSegment currentSegment : Segment) : Segment :=
  { previousSegment with
    «end» := currentSegment.«end»
    text := previousSegment.text ++ " " ++ currentSegment.text }

/-- The merge test of lines 353-356: same speaker and
`currentSegment.start - previousSegment.end <= this.mergeThreshold`. -/
def mergeCond (mergeThreshold : ℚ) (previousSegment currentSegment : Segment) : Prop :=
  currentSegment.speaker = previousSegment.speaker ∧
    currentSegment.start - previousSegment.«end» ≤ mergeThreshold

instance (t : ℚ) (p c : Segment) : Decidable (mergeCond t p c) := by
  unfold mergeCond; infer_instance

/-- One iteration of the `for` loop of lines 348-362: `result` is the kept
array, `previousSegment = result[result.length - 1]`, and the body either
mutates that last element or pushes `currentSegment`. -/
def optimizeStep (mergeThreshold : ℚ) (result : List Segment)
    (currentSegment : Segment) : List Segment :=
  match result.getLast? with
  | none => [currentSegment]
  | some previousSegment =>
    if mergeCond mergeThreshold previousSegment currentSegment then
      result.dropLast ++ [mergeInto previousSegment currentSegment]
    else
      result ++ [currentSegment]

/-- The `optimizeSegments(segments)` (part_000 lines 340-365): early return for
length ≤ 1, then the left-to-right merging loop starting from
`result = [segments[0]]`. -/
def optimizeSegments (mergeThreshold : ℚ) (segments : List Segment) : List Segment :=
  if segments.length ≤ 1 then segments
  else
    match segments with
    | [] => []
    | first :: rest => rest.foldl (optimizeStep mergeThreshold) [first]

/-- Functional characterization of the loop of `optimizeSegments`: carry the
current kept segment; merge extends it, otherwise it is emitted and the
current segment becomes the carried one. -/
def optimizeLoop (mergeThreshold : ℚ) (previousSegment : Segment) :
    List Segment → List Segment
  | [] => [previousSegment]
  | currentSegment :: rest =>
    if mergeCond mergeThreshold previousSegment currentSegment then
      optimizeLoop mergeThreshold (mergeInto previousSegment currentSegment) rest
    else
      previousSegment :: optimizeLoop mergeThreshold currentSegment rest

/-- Adjacent kept segments that do *not* satisfy the merge test. -/
def noMerge (t : ℚ) (a b : Segment) : Prop := ¬ mergeCond t a b

/-! ## Euclidean distance (`euclideanDistance`, part_000 lines 274-278) -/

/-- The rational sum of squares inside `euclideanDistance`'s `Math.sqrt`
(all callers pass equal-length vectors, so the `reduce` over `vec1` with
lookups `vec2[i]` is the zip of the two). -/
def euclideanDistanceSq (vec1 vec2 : List ℚ) : ℚ :=
  ((vec1.zip vec2).map (fun p => (p.1 - p.2) ^ 2)).sum

/-- The `euclideanDistance(vec1, vec2)` itself:
`Math.sqrt(vec1.reduce((sum, value, i) => sum + (value - vec2[i])^2, 0))`. -/
noncomputable def euclideanDistance (vec1 vec2 : List ℚ) : ℝ :=
  Real.sqrt ((euclideanDistanceSq vec1 vec2 : ℚ) : ℝ)

/-! ## k-means (`kMeansClustering`, part_000 lines 202-265) -/

/-- The inner argmin loop of lines 222-233, continued from index `j` with
current best squared distance `m` at index `best`: on each step the strict
test `distance < minDistance` keeps the lowest index on ties. -/
def minFrom (vector : List ℚ) : ℕ → ℚ → ℕ → List (List ℚ) → ℕ
  | _, _, best, [] => best
  | j, m, best, c :: cs =>
    if euclideanDistanceSq vector c < m then minFrom vector (j + 1) (euclideanDistanceSq vector c) j cs
    else minFrom vector (j + 1) m best cs

/-- The `closestCentroid` for one vector (lines 222-233): `minDistance` starts at
`Infinity`, so a nonempty centroid list always takes index 0 first; an empty
list leaves the initial `closestCentroid = 0`. -/
def closestCentroidIdx (vector : List ℚ) (centroids : List (List ℚ)) : ℕ :=
  match centroids with
  | [] => 0
  | c :: cs => minFrom vector 1 (euclideanDistanceSq vector c) 0 cs

/-- Vectors assigned to cluster `i` (the accumulation of lines 245-252,
read off per cluster). -/
def membersOf (vectors : List (List ℚ)) (assignments : List Int) (i : ℕ) : List (List ℚ) :=
  ((vectors.zip assignments).filter (fun p => p.2 = (i : Int))).map (fun p => p.1)

/-- Component-wise sum of equal-length vectors starting from the zero vector
`Array(dim).fill(0)` (line 242). -/
def vecSum (dim : ℕ) (vs : List (List ℚ)) : List ℚ :=
  vs.foldl (fun acc v => (acc.zip v).map (fun p => p.1 + p.2)) (List.replicate dim 0)

/-- Step 2 of the loop (lines 241-261): each centroid with at least one
assigned vector becomes the mean of its members; a centroid with zero
members keeps its previous position. -/
def recomputeCentroids (vectors : List (List ℚ)) (assignments : List Int)
    (centroids : List (List ℚ)) (dim : ℕ) : List (List ℚ) :=
  centroids.enum.map (fun p =>
    let members := membersOf vectors assignments p.1
    if 0 < members.length then (vecSum dim members).map (fun x => x / (members.length : ℚ))
    else p.2)

/-- The `while (changed && iterations < maxIterations)` loop of lines
217-262, with the remaining iteration budget as fuel: each round assigns
every vector to its closest centroid, recomputes centroids, and continues
only if some assignment changed.  Returns the final centroids, assignments
and the number of executed iterations. -/
def kMeansIter (vectors : List (List ℚ)) (dim : ℕ) :
    ℕ → ℕ → List (List ℚ) → List Int → List (List ℚ) × List Int × ℕ
  | 0, iterations, centroids, assignments => (centroids, assignments, iterations)
  | fuel + 1, iterations, centroids, assignments =>
    let newAssignments := vectors.map (fun v => (closestCentroidIdx v centroids : Int))
    let newCentroids := recomputeCentroids vectors newAssignments centroids dim
    if newAssignments ≠ assignments then
      kMeansIter vectors dim fuel (iterations + 1) newCentroids newAssignments
    else (newCentroids, newAssignments, iterations + 1)

/-- The `{ centroids, assignments }` (line 264). -/
structure KMeansResult where
  centroids : List (List ℚ)
  assignments : List Int
deriving Repr, DecidableEq

/-- The `kMeansClustering(vectors, k, maxIterations)` with the iteration count
also returned.  The ambient `Math.random()` of the initial-centroid
selection (lines 208-211) is injected as `pick`; `pick i % vectors.length`
ranges over exactly the indices `Math.floor(Math.random() * length)` can
produce. -/
def kMeansRun (pick : ℕ → ℕ) (vectors : List (List ℚ)) (k : ℕ) (maxIterations : ℕ) :
    List (List ℚ) × List Int × ℕ :=
  if vectors.length = 0 then ([], [], 0)
  else
    let centroids := (List.range k).map (fun i => vectors.getD (pick i % vectors.length) [])
    kMeansIter vectors (vectors.headD []).length maxIterations 0 centroids
      (List.replicate vectors.length (-1))

/-- The `kMeansClustering(vectors, k)` at the default cap `maxIterations = 100`. -/
def kMeansClustering (pick : ℕ → ℕ) (vectors : List (List ℚ)) (k : ℕ) : KMeansResult :=
  ⟨(kMeansRun pick vectors k 100).1, (kMeansRun pick vectors k 100).2.1⟩

/-! ## Labeling every frame (`clusterFeatureVectors`, part_000 lines 147-192) -/

/-- JavaScript `Array.prototype.indexOf`: first index of `a`, `-1` if absent. -/
def jsIndexOf (a : ℚ) : List ℚ → Int
  | [] => -1
  | x :: xs =>
    if x = a then 0
    else
      let r := jsIndexOf a xs
      if r = -1 then -1 else r + 1

/-- The `Math.min` of two numbers. -/
def mathMin (a b : ℚ) : ℚ := if a ≤ b then a else b

/-- The `distances.indexOf(Math.min(...distances))` (line 181); on an empty
list `Math.min()` is `Infinity`, which `indexOf` does not find (`-1`).  Run
on the squared distances, justified by `euclideanDistance_lt_iff` /
`euclideanDistance_eq_iff`. -/
def minIndexOf (distances : List ℚ) : Int :=
  match distances with
  | [] => -1
  | d :: ds => jsIndexOf (ds.foldl mathMin d) (d :: ds)

/-- The `extractFeatureVectors(audioFeatures)` (part_000 lines 118-138): the
7-dimensional scaled vector per frame. -/
def extractFeatureVectors (audioFeatures : List FeatureFrame) : List FeatureVector :=
  audioFeatures.map (fun frame =>
    { time := frame.time
      vector := [frame.features.spectralCentroid,
                 frame.features.rms * 100,
                 frame.features.spectralFlux * 10,
                 frame.features.zeroCrossingRate * 1000,
                 frame.features.bandEnergies.lowBand * 10,
                 frame.features.bandEnergies.midBand * 10,
                 frame.features.bandEnergies.highBand * 10] })

/-- The `clusterFeatureVectors(featureVectors, k)` (part_000 lines 147-192):
filter the active vectors (`vector[1] > 0.1`), return `[]` if none, run
k-means with `Math.min(k, activeVectors.length)` clusters, then label every
original frame (`-1` for silent, else the nearest-centroid index). -/
def clusterFeatureVectors (pick : ℕ → ℕ) (featureVectors : List FeatureVector) (k : ℤ) :
    List LabeledVector :=
  let activeVectors := featureVectors.filter (fun v => 1/10 < v.vector.getD 1 0)
  if activeVectors.length = 0 then []
  else
    let kMeans := kMeansClustering pick (activeVectors.map (fun v => v.vector))
      (min k (activeVectors.length : ℤ)).toNat
    featureVectors.map (fun v =>
      if v.vector.getD 1 0 ≤ 1/10 then { time := v.time, vector := v.vector, cluster := -1 }
      else
        { time := v.time, vector := v.vector,
          cluster := minIndexOf (kMeans.centroids.map
            (fun centroid => euclideanDistanceSq v.vector centroid)) })

/-! ## Chunk labeling (`assignSpeakersToSegments`, part_000 lines 288-332) -/

/-- The count `clusterCounts[c]` of lines 300-305 (only non-negative
clusters are counted). -/
def countCluster (relevantFeatures : List LabeledVector) (c : ℕ) : ℕ :=
  (relevantFeatures.filter (fun f => f.cluster = (c : Int))).length

/-- An upper bound on the cluster ids present in a labeled list. -/
def maxClusterNat (fs : List LabeledVector) : ℕ :=
  fs.foldl (fun m f => max m f.cluster.toNat) 0

/-- The `Object.entries(clusterCounts)`: the (cluster, count) pairs with a
positive count, in ascending id order — JavaScript enumerates integer-like
keys of an object in ascending numeric order. -/
def clusterEntries (relevantFeatures : List LabeledVector) : List (ℕ × ℕ) :=
  (List.range (maxClusterNat relevantFeatures + 1)).filterMap (fun c =>
    if 0 < countCluster relevantFeatures c then some (c, countCluster relevantFeatures c)
    else none)

/-- The `forEach` of lines 311-316: starting from
`(dominantCluster, maxCount) = (-1, 0)`, take each entry whose count
strictly beats the current maximum. -/
def pickDominant (entries : List (ℕ × ℕ)) : Int × ℕ :=
  entries.foldl (fun acc e => if acc.2 < e.2 then ((e.1 : Int), e.2) else acc) (-1, 0)

/-- Lines 318-321: `String.fromCharCode(65 + dominantCluster % 26)` for a
resolved cluster, `"Unknown"` otherwise. -/
def speakerLabelOf (dominantCluster : Int) : String :=
  if 0 ≤ dominantCluster then String.mk [Char.ofNat (65 + (dominantCluster % 26).toNat)]
  else "Unknown"

/-- The loop body of lines 291-329 for one chunk. -/
def labelChunk (clusteredFeatures : List LabeledVector) (chunk : TranscriptChunk) : Segment :=
  let startTime := chunk.timestamp.1
  let endTime := chunk.timestamp.2
  let relevantFeatures := clusteredFeatures.filter
    (fun f => startTime ≤ f.time ∧ f.time ≤ endTime)
  { text := chunk.text
    start := startTime
    «end» := endTime
    speaker := speakerLabelOf (pickDominant (clusterEntries relevantFeatures)).1 }

/-- The `assignSpeakersToSegments(clusteredFeatures, featureVectors,
transcriptionChunks)` (the `featureVectors` argument is unused by the
source body). -/
def assignSpeakersToSegments (clusteredFeatures : List LabeledVector)
    (transcriptionChunks : List TranscriptChunk) : List Segment :=
  transcriptionChunks.map (labelChunk clusteredFeatures)

/-! ## Speaker roster, progress, engine state (part_000 lines 6-110, 373-397) -/

/-- The `extractUniqueSpeakers(segments)` (lines 373-382): the distinct
non-`"Unknown"` labels (a `Set` keeps first insertions) sorted
lexicographically by `Array.prototype.sort`. -/
def extractUniqueSpeakers (segments : List Segment) : List String :=
  List.insertionSort (fun a b => a ≤ b)
    (((segments.map (fun s => s.speaker)).filter (fun s => s ≠ "Unknown")).dedup)

/-- The notifications a run delivers through its callbacks. -/
inductive DiarizationEvent where
  | processingStart : DiarizationEvent
  | progress : ℚ → String → DiarizationEvent
  | processingComplete : DiarizationResult → DiarizationEvent
  | errorEvent : String → String → DiarizationEvent
deriving Repr, DecidableEq

/-- The `updateProgress(progress, message)` (lines 390-397): the value is
clamped into `[0, 1]` before delivery. -/
def updateProgress (progress : ℚ) (message : String) : DiarizationEvent :=
  DiarizationEvent.progress (min 1 (max 0 progress)) message

/-- The engine's own state (constructor, lines 7-21): configuration plus
the single in-flight flag. -/
structure SpeakerDiarization where
  maxSpeakers : ℤ
  minSegmentDuration : ℚ
  mergeThreshold : ℚ
  isProcessing : Bool
deriving Repr, DecidableEq

/-- The `new SpeakerDiarization()`: `maxSpeakers = 3`,
`minSegmentDuration = 1.0`, `mergeThreshold = 0.5`,
`isProcessing = false`. -/
def newSpeakerDiarization : SpeakerDiarization :=
  { maxSpeakers := 3, minSegmentDuration := 1, mergeThreshold := 1/2, isProcessing := false }

/-- The `setMaxSpeakers(count)` (lines 27-29): `Math.max(1, Math.min(10, count))`. -/
def setMaxSpeakers (s : SpeakerDiarization) (count : ℤ) : SpeakerDiarization :=
  { s with maxSpeakers := max 1 (min 10 count) }

/-- The busy-error message of line 39. -/
def busyMessage : String := "既に処理中のタスクがあります"

/-- The `processDiarization(audioFeatures, transcription)` (lines 37-110).
Returns the outcome, the post-call engine state, and the trace of
notifications delivered (the success path sets `isProcessing = true`, runs
the four phases emitting the five progress milestones, and clears the flag
before returning; the busy path throws before touching any state or
callback).  With well-typed inputs no phase throws, so the JavaScript
`catch` branch is unreachable here. -/
def processDiarization (pick : ℕ → ℕ) (s : SpeakerDiarization)
    (audioFeatures : List FeatureFrame) (transcription : Transcription) :
    Except String DiarizationResult × SpeakerDiarization × List DiarizationEvent :=
  if s.isProcessing then
    (Except.error busyMessage, s, [])
  else
    let featureVectors := extractFeatureVectors audioFeatures
    let clusters := clusterFeatureVectors pick featureVectors s.maxSpeakers
    let labeledSegments := assignSpeakersToSegments clusters transcription.chunks
    let optimizedSegments := optimizeSegments s.mergeThreshold labeledSegments
    let result : DiarizationResult :=
      { text := transcription.text
        segments := optimizedSegments
        speakers := extractUniqueSpeakers optimizedSegments }
    (Except.ok result,
     { s with isProcessing := false },
     [DiarizationEvent.processingStart,
      updateProgress (1/10) "特性ベクトルを抽出中...",
      updateProgress (3/10) "クラスタリング中...",
      updateProgress (6/10) "セグメントに話者を割り当て中...",
      updateProgress (8/10) "セグメントを最適化中...",
      updateProgress 1 "完了",
      DiarizationEvent.processingComplete result])

/-! ## AudioProcessor flux state (exporter.js lines 172-210, 574-590, 654-656) -/

/-- The `AudioProcessor` state the flux claims are about: the single-slot
previous-spectrum history `prevFreqData` (never assigned by the
constructor, hence initially absent) and the accumulated `audioFeatures`
series. -/
structure AudioProcessor where
  prevFreqData : Option (List ℝ)
  audioFeatures : List FeatureFrame

/-- The `new AudioProcessor()`: `audioFeatures = []`, `prevFreqData` unset. -/
def newAudioProcessor : AudioProcessor :=
  { prevFreqData := none, audioFeatures := [] }

/-- dB-to-linear conversion `Math.pow(10, db / 20)` (line 582). -/
noncomputable def dbToLinear (db : ℝ) : ℝ := (10 : ℝ) ^ (db / 20)

/-- The `calculateSpectralFlux(freqData)` (lines 574-590) as a function of the
`prevFreqData` slot: with no history, allocate an all-zero spectrum as the
history and return 0 (the current frame is *not* stored); otherwise return
the Euclidean norm of the bin-wise linear-magnitude difference and store
the current frame (`this.prevFreqData.set(freqData)`; the analyser's bin
count is fixed, so the arrays have equal length and the loop is the zip). -/
noncomputable def calculateSpectralFlux (prevFreqData : Option (List ℝ))
    (freqData : List ℝ) : ℝ × Option (List ℝ) :=
  match prevFreqData with
  | none => (0, some (List.replicate freqData.length 0))
  | some prev =>
    (Real.sqrt (((freqData.zip prev).map
        (fun p => (dbToLinear p.1 - dbToLinear p.2) ^ 2)).sum),
      some freqData)

/-- One flux computation threaded through the processor state. -/
noncomputable def processFluxFrame (p : AudioProcessor) (freqData : List ℝ) :
    ℝ × AudioProcessor :=
  ((calculateSpectralFlux p.prevFreqData freqData).1,
   { p with prevFreqData := (calculateSpectralFlux p.prevFreqData freqData).2 })

/-- The `resetAudioFeatures()` (lines 654-656): `this.audioFeatures = []` —
nothing else is touched. -/
def resetAudioFeatures (p : AudioProcessor) : AudioProcessor :=
  { p with audioFeatures := [] }

/-- The `getAudioFeatures()` (lines 647-649). -/
def getAudioFeatures (p : AudioProcessor) : List FeatureFrame := p.audioFeatures

/-! ## Observation helpers used by the statements -/

/-- The progress notifications of a trace, in order. -/
def progressEvents : List DiarizationEvent → List (ℚ × String)
  | [] => []
  | DiarizationEvent.progress p m :: rest => (p, m) :: progressEvents rest
  | DiarizationEvent.processingStart :: rest => progressEvents rest
  | DiarizationEvent.processingComplete _ :: rest => progressEvents rest
  | DiarizationEvent.errorEvent _ _ :: rest => progressEvents rest

/-- The dominant-cluster scan of lines 307-316 expressed over all ids
`0 ≤ c < n` in increasing order against a count function (absent ids have
count 0 and can never win the strict test). -/
def scanDominant (cnt : ℕ → ℕ) (n : ℕ) : Int × ℕ :=
  (List.range n).foldl (fun acc c => if acc.2 < cnt c then ((c : Int), cnt c) else acc) (-1, 0)

/-- The count, for one chunk, of labeled frames inside the chunk's closed
time range carrying cluster id `c` — the quantity `clusterCounts[c]` of
lines 294-305. -/
def chunkClusterCount (clusteredFeatures : List LabeledVector) (chunk : TranscriptChunk)
    (c : ℕ) : ℕ :=
  (clusteredFeatures.filter (fun f =>
    chunk.timestamp.1 ≤ f.time ∧ f.time ≤ chunk.timestamp.2 ∧ f.cluster = (c : Int))).length

/-- Placeholder segment for safe positional indexing in statements. -/
def dummySegment : Segment := { text := "", start := 0, «end» := 0, speaker := "" }

/-- Placeholder chunk for safe positional indexing in statements. -/
def dummyChunk : TranscriptChunk := { text := "", timestamp := (0, 0) }

/-- The distinct speaker labels of a segment list other than `"Unknown"`. -/
def distinctSpeakerCount (segments : List Segment) : ℕ :=
  (((segments.map (fun s => s.speaker)).filter (fun x => x ≠ "Unknown")).dedup).length

/-- The segment list a non-busy `processDiarization` run produces (the
composition of its four phases). -/
def successSegments (pick : ℕ → ℕ) (s : SpeakerDiarization) (af : List FeatureFrame)
    (t : Transcription) : List Segment :=
  optimizeSegments s.mergeThreshold
    (assignSpeakersToSegments
      (clusterFeatureVectors pick (extractFeatureVectors af) s.maxSpeakers) t.chunks)

/-!
# Lemmas
-/

/-! ## The merging pass -/

lemma optimizeLoop_ne_nil (t : ℚ) (p : Segment) (l : List Segment) :
    optimizeLoop t p l ≠ [] := by
  induction l generalizing p with
  | nil => simp [optimizeLoop]
  | cons c rest ih =>
    by_cases h : mergeCond t p c <;> simp [optimizeLoop, h, ih]

lemma foldl_optimizeStep_eq (t : ℚ) (rest : List Segment) :
    ∀ (init : List Segment) (p : Segment),
      rest.foldl (optimizeStep t) (init ++ [p]) = init ++ optimizeLoop t p rest := by
  induction rest with
  | nil => intro init p; simp [optimizeLoop]
  | cons c rest ih =>
    intro init p
    by_cases h : mergeCond t p c
    · simpa [optimizeStep, List.getLast?_concat, List.dropLast_concat, h,
        optimizeLoop] using ih init (mergeInto p c)
    · calc (c :: rest).foldl (optimizeStep t) (init ++ [p])
          = rest.foldl (optimizeStep t) ((init ++ [p]) ++ [c]) := by
            simp [optimizeStep, List.getLast?_concat, h]
        _ = (init ++ [p]) ++ optimizeLoop t c rest := ih (init ++ [p]) c
        _ = init ++ optimizeLoop t p (c :: rest) := by
            simp [optimizeLoop, h]

/-- The array loop of `optimizeSegments` computes `optimizeLoop`. -/
lemma optimizeSegments_eq_loop (t : ℚ) (first : Segment) (rest : List Segment) :
    optimizeSegments t (first :: rest) = optimizeLoop t first rest := by
  match rest with
  | [] => simp [optimizeSegments, optimizeLoop]
  | b :: rest =>
    have h : ¬ (first :: b :: rest).length ≤ 1 := by simp
    simpa [optimizeSegments, h] using foldl_optimizeStep_eq t (b :: rest) [] first

lemma optimizeLoop_head (t : ℚ) (l : List Segment) :
    ∀ p : Segment, ∃ s rest', optimizeLoop t p l = s :: rest' ∧
      s.speaker = p.speaker ∧ s.start = p.start := by
  induction l with
  | nil => intro p; exact ⟨p, [], rfl, rfl, rfl⟩
  | cons c rest ih =>
    intro p
    by_cases h : mergeCond t p c
    · obtain ⟨s, rest', heq, hsp, hst⟩ := ih (mergeInto p c)
      exact ⟨s, rest', by simp [optimizeLoop, h, heq], hsp, hst⟩
    · exact ⟨p, optimizeLoop t c rest, by simp [optimizeLoop, h], rfl, rfl⟩

/-- After the single pass, no adjacent pair of kept segments still satisfies
the merge test. -/
lemma optimizeLoop_chain (t : ℚ) (l : List Segment) :
    ∀ p : Segment, List.Chain' (noMerge t) (optimizeLoop t p l) := by
  induction l with
  | nil => intro p; simp [optimizeLoop]
  | cons c rest ih =>
    intro p
    by_cases h : mergeCond t p c
    · simpa [optimizeLoop, h] using ih (mergeInto p c)
    · obtain ⟨s, rest', heq, hsp, hst⟩ := optimizeLoop_head t rest c
      have hnm : noMerge t p s := by
        intro hm
        exact h ⟨by rw [← hsp] ; exact hm.1, by rw [← hst] ; exact hm.2⟩
      simp only [optimizeLoop, if_neg h, heq]
      exact List.chain'_cons.mpr ⟨hnm, heq ▸ ih c⟩

/-- A list in which no adjacent pair satisfies the merge test is a fixed
point of the merging loop. -/
lemma optimizeLoop_fixpoint (t : ℚ) (l : List Segment) :
    ∀ p : Segment, List.Chain' (noMerge t) (p :: l) → optimizeLoop t p l = p :: l := by
  induction l with
  | nil => intro p _; rfl
  | cons c rest ih =>
    intro p hch
    rcases List.chain'_cons.mp hch with ⟨hnm, hch'⟩
    have hcond : ¬ mergeCond t p c := hnm
    simp [optimizeLoop, hcond, ih c hch']

/-- Every speaker label of the merged output already labels some input
segment. -/
lemma optimizeLoop_speaker_subset (t : ℚ) (l : List Segment) :
    ∀ p : Segment, ∀ x ∈ optimizeLoop t p l,
      x.speaker = p.speaker ∨ x.speaker ∈ l.map (fun s => s.speaker) := by
  induction l with
  | nil => intro p x hx; left; simp [optimizeLoop] at hx; rw [hx]
  | cons c rest ih =>
    intro p x hx
    by_cases h : mergeCond t p c
    · rw [optimizeLoop, if_pos h] at hx
      rcases ih (mergeInto p c) x hx with h1 | h1
      · left; exact h1
      · right; simp [h1]
    · rw [optimizeLoop, if_neg h] at hx
      rcases List.mem_cons.mp hx with h1 | h1
      · left; rw [h1]
      · rcases ih c x h1 with h2 | h2
        · right; simp [h2]
        · right; simp [h2]

/-! ## Distance bridge -/

lemma euclideanDistanceSq_nonneg (v w : List ℚ) : 0 ≤ euclideanDistanceSq v w := by
  unfold euclideanDistanceSq
  apply List.sum_nonneg
  intro x hx
  obtain ⟨p, _, rfl⟩ := List.mem_map.mp hx
  positivity

/-- Bridge: the code only compares distances (strict `<`, `Math.min`,
`indexOf`), and those comparisons coincide with comparisons of the squared
distances, since `Real.sqrt` is strictly monotone on nonnegatives.  The
algorithm is therefore run on `euclideanDistanceSq`. -/
lemma euclideanDistance_lt_iff (a b c d : List ℚ) :
    euclideanDistance a b < euclideanDistance c d ↔
      euclideanDistanceSq a b < euclideanDistanceSq c d := by
  unfold euclideanDistance
  rw [Real.sqrt_lt_sqrt_iff (by exact_mod_cast euclideanDistanceSq_nonneg a b)]
  exact_mod_cast Iff.rfl

/-- Bridge for equality comparisons (`indexOf` tests `===` on distances):
`Real.sqrt` is injective on nonnegatives. -/
lemma euclideanDistance_eq_iff (a b c d : List ℚ) :
    euclideanDistance a b = euclideanDistance c d ↔
      euclideanDistanceSq a b = euclideanDistanceSq c d := by
  unfold euclideanDistance
  rw [Real.sqrt_inj (by exact_mod_cast euclideanDistanceSq_nonneg a b)
    (by exact_mod_cast euclideanDistanceSq_nonneg c d)]
  exact_mod_cast Iff.rfl

/-! ## k-means: assignment range and iteration bound -/

lemma minFrom_lt (v : List ℚ) (n : ℕ) :
    ∀ (cs : List (List ℚ)) (j : ℕ) (m : ℚ) (best : ℕ), best < n → j + cs.length ≤ n →
      minFrom v j m best cs < n := by
  intro cs
  induction cs with
  | nil =>
    intro j m best hb _
    simpa [minFrom] using hb
  | cons c cs ih =>
    intro j m best hb hj
    simp only [List.length_cons] at hj
    by_cases h : euclideanDistanceSq v c < m
    · simpa [minFrom, h] using ih (j + 1) (euclideanDistanceSq v c) j (by omega) (by omega)
    · simpa [minFrom, h] using ih (j + 1) m best hb (by omega)

lemma closestCentroidIdx_lt (v : List ℚ) (cs : List (List ℚ)) (h : cs ≠ []) :
    closestCentroidIdx v cs < cs.length := by
  match cs with
  | c :: cs' =>
    simp only [closestCentroidIdx, List.length_cons]
    exact minFrom_lt v (cs'.length + 1) cs' 1 (euclideanDistanceSq v c) 0 (by omega) (by omega)

lemma recomputeCentroids_length (vectors : List (List ℚ)) (assignments : List Int)
    (centroids : List (List ℚ)) (dim : ℕ) :
    (recomputeCentroids vectors assignments centroids dim).length = centroids.length := by
  simp [recomputeCentroids]

/-- Invariant of the k-means loop: the iteration counter grows by at most
the fuel, the centroid count never changes, and after at least one round
every assignment is a cluster id in `[0, k)`. -/
lemma kMeansIter_spec (vectors : List (List ℚ)) (dim k : ℕ) (hk : 1 ≤ k) :
    ∀ (fuel iterations : ℕ) (cs : List (List ℚ)) (as : List Int), cs.length = k →
      (kMeansIter vectors dim fuel iterations cs as).2.2 ≤ iterations + fuel ∧
      (kMeansIter vectors dim fuel iterations cs as).1.length = k ∧
      (((kMeansIter vectors dim fuel iterations cs as).2.1 = as ∧ fuel = 0) ∨
        ((kMeansIter vectors dim fuel iterations cs as).2.1.length = vectors.length ∧
         ∀ a ∈ (kMeansIter vectors dim fuel iterations cs as).2.1, 0 ≤ a ∧ a < (k : Int))) := by
  intro fuel
  induction fuel with
  | zero =>
    intro iterations cs as hcs
    exact ⟨by simp [kMeansIter], by simpa [kMeansIter] using hcs, Or.inl ⟨rfl, rfl⟩⟩
  | succ fuel ih =>
    intro iterations cs as hcs
    have hcs' : cs ≠ [] := by
      intro hnil; rw [hnil] at hcs; simp at hcs; omega
    have hprop : (vectors.map (fun v => (closestCentroidIdx v cs : Int))).length = vectors.length ∧
        ∀ a ∈ vectors.map (fun v => (closestCentroidIdx v cs : Int)), 0 ≤ a ∧ a < (k : Int) := by
      refine ⟨by simp, ?_⟩
      intro a ha
      obtain ⟨v, _, rfl⟩ := List.mem_map.mp ha
      have hlt : closestCentroidIdx v cs < k := hcs ▸ closestCentroidIdx_lt v cs hcs'
      exact ⟨Int.natCast_nonneg _, by exact_mod_cast hlt⟩
    have hrl : (recomputeCentroids vectors
        (vectors.map (fun v => (closestCentroidIdx v cs : Int))) cs dim).length = k := by
      rw [recomputeCentroids_length]; exact hcs
    by_cases hch : vectors.map (fun v => (closestCentroidIdx v cs : Int)) ≠ as
    · have hstep : kMeansIter vectors dim (fuel + 1) iterations cs as =
          kMeansIter vectors dim fuel (iterations + 1)
            (recomputeCentroids vectors
              (vectors.map (fun v => (closestCentroidIdx v cs : Int))) cs dim)
            (vectors.map (fun v => (closestCentroidIdx v cs : Int))) := by
        simp only [kMeansIter, if_pos hch]
      obtain ⟨h1, h2, h3⟩ := ih (iterations + 1) _ _ hrl
      rw [hstep]
      refine ⟨by omega, h2, ?_⟩
      rcases h3 with ⟨heq, _⟩ | h3
      · refine Or.inr ?_
        rw [heq]
        exact hprop
      · exact Or.inr h3
    · have hstep : kMeansIter vectors dim (fuel + 1) iterations cs as =
          (recomputeCentroids vectors
            (vectors.map (fun v => (closestCentroidIdx v cs : Int))) cs dim,
           vectors.map (fun v => (closestCentroidIdx v cs : Int)), iterations + 1) := by
        simp only [kMeansIter, if_neg hch]
      rw [hstep]
      refine ⟨?_, hrl, Or.inr hprop⟩
      show iterations + 1 ≤ iterations + (fuel + 1)
      omega

/-- The `kMeansClustering` on a nonempty input with `k ≥ 1`: iteration count at
most the cap, one in-range assignment per vector, `k` centroids. -/
lemma kMeansRun_spec (pick : ℕ → ℕ) (vectors : List (List ℚ)) (k : ℕ)
    (hv : vectors ≠ []) (hk : 1 ≤ k) :
    (kMeansRun pick vectors k 100).2.2 ≤ 100 ∧
    (kMeansRun pick vectors k 100).1.length = k ∧
    (kMeansRun pick vectors k 100).2.1.length = vectors.length ∧
    ∀ a ∈ (kMeansRun pick vectors k 100).2.1, 0 ≤ a ∧ a < (k : Int) := by
  have hlen : ¬ vectors.length = 0 := by simpa [List.length_eq_zero] using hv
  have hcs : ((List.range k).map
      (fun i => vectors.getD (pick i % vectors.length) [])).length = k := by simp
  obtain ⟨h1, h2, h3⟩ := kMeansIter_spec vectors (vectors.headD []).length k hk 100 0 _
    (List.replicate vectors.length (-1)) hcs
  rcases h3 with ⟨_, hfuel⟩ | h3
  · exact absurd hfuel (by omega)
  · simp only [kMeansRun, if_neg hlen]
    exact ⟨by simpa using h1, h2, h3⟩

lemma kMeansClustering_centroids_length (pick : ℕ → ℕ) (vectors : List (List ℚ)) (k : ℕ)
    (hv : vectors ≠ []) (hk : 1 ≤ k) :
    (kMeansClustering pick vectors k).centroids.length = k :=
  (kMeansRun_spec pick vectors k hv hk).2.1

/-! ## `Math.min` / `indexOf` -/

lemma mathMin_choice (a b : ℚ) : mathMin a b = a ∨ mathMin a b = b := by
  unfold mathMin
  split
  · exact Or.inl rfl
  · exact Or.inr rfl

lemma foldl_min_mem (ds : List ℚ) : ∀ d : ℚ, ds.foldl mathMin d ∈ d :: ds := by
  induction ds with
  | nil => intro d; simp
  | cons x xs ih =>
    intro d
    have hm := ih (mathMin d x)
    rcases mathMin_choice d x with h' | h' <;> rw [h'] at hm <;>
      simp only [List.foldl_cons, h'] <;>
      rcases List.mem_cons.mp hm with h | h <;> simp [h]

lemma jsIndexOf_range (a : ℚ) : ∀ l : List ℚ, a ∈ l →
    0 ≤ jsIndexOf a l ∧ jsIndexOf a l < l.length := by
  intro l
  induction l with
  | nil => intro h; simp at h
  | cons x xs ih =>
    intro h
    by_cases hx : x = a
    · simp [jsIndexOf, hx]
    · have hmem : a ∈ xs := by
        rcases List.mem_cons.mp h with h1 | h1
        · exact absurd h1.symm hx
        · exact h1
      obtain ⟨h1, h2⟩ := ih hmem
      have hne : ¬ jsIndexOf a xs = -1 := by omega
      simp only [jsIndexOf, if_neg hx, if_neg hne, List.length_cons]
      omega

lemma minIndexOf_range (ds : List ℚ) (h : ds ≠ []) :
    0 ≤ minIndexOf ds ∧ minIndexOf ds < ds.length := by
  match ds with
  | d :: ds' => exact jsIndexOf_range _ _ (foldl_min_mem ds' d)

/-- Every cluster id produced by `clusterFeatureVectors` is `-1` (silence)
or lies in `[0, maxSpeakers)`. -/
lemma clusterFeatureVectors_cluster_range (pick : ℕ → ℕ) (fv : List FeatureVector) (k : ℤ)
    (hk : 1 ≤ k) :
    ∀ lv ∈ clusterFeatureVectors pick fv k,
      lv.cluster = -1 ∨ (0 ≤ lv.cluster ∧ lv.cluster < k) := by
  intro lv hlv
  rw [clusterFeatureVectors] at hlv
  by_cases hact : (fv.filter (fun v => decide (1/10 < v.vector.getD 1 0))).length = 0
  · rw [if_pos hact] at hlv
    simp at hlv
  · rw [if_neg hact] at hlv
    obtain ⟨v, _, rfl⟩ := List.mem_map.mp hlv
    by_cases hsil : v.vector.getD 1 0 ≤ 1/10
    · left; rw [if_pos hsil]
    · right
      simp only [if_neg hsil]
      have hlen1 : 1 ≤ (fv.filter (fun v => decide (1/10 < v.vector.getD 1 0))).length :=
        Nat.pos_of_ne_zero hact
      have hmin : 1 ≤ min k ((fv.filter (fun v => decide (1/10 < v.vector.getD 1 0))).length : ℤ) :=
        le_min hk (by exact_mod_cast hlen1)
      have hK : 1 ≤ (min k ((fv.filter (fun v => decide (1/10 < v.vector.getD 1 0))).length : ℤ)).toNat := by
        omega
      have hne : (fv.filter (fun v => decide (1/10 < v.vector.getD 1 0))).map
          (fun v => v.vector) ≠ [] := by
        intro hnil
        have h0 := congrArg List.length hnil
        rw [List.length_map] at h0
        simp only [List.length_nil] at h0
        omega
      have hcl := kMeansClustering_centroids_length pick _ _ hne hK
      have hds : ((kMeansClustering pick ((fv.filter
          (fun v => decide (1/10 < v.vector.getD 1 0))).map (fun v => v.vector))
          (min k ((fv.filter (fun v => decide (1/10 < v.vector.getD 1 0))).length : ℤ)).toNat).centroids.map
          (fun centroid => euclideanDistanceSq v.vector centroid)).length =
          (min k ((fv.filter (fun v => decide (1/10 < v.vector.getD 1 0))).length : ℤ)).toNat := by
        rw [List.length_map, hcl]
      have hdsne : (kMeansClustering pick ((fv.filter
          (fun v => decide (1/10 < v.vector.getD 1 0))).map (fun v => v.vector))
          (min k ((fv.filter (fun v => decide (1/10 < v.vector.getD 1 0))).length : ℤ)).toNat).centroids.map
          (fun centroid => euclideanDistanceSq v.vector centroid) ≠ [] := by
        intro hnil
        have h0 := congrArg List.length hnil
        rw [hds] at h0
        simp only [List.length_nil] at h0
        omega
      obtain ⟨hge, hlt⟩ := minIndexOf_range _ hdsne
      rw [hds] at hlt
      exact ⟨hge, by omega⟩

/-! ## The dominant-cluster scan -/

lemma pickDominant_eq_scanAux (cnt : ℕ → ℕ) (l : List ℕ) :
    ∀ acc : Int × ℕ,
      (l.filterMap (fun c => if 0 < cnt c then some (c, cnt c) else none)).foldl
        (fun acc e => if acc.2 < e.2 then ((e.1 : Int), e.2) else acc) acc =
      l.foldl (fun acc c => if acc.2 < cnt c then ((c : Int), cnt c) else acc) acc := by
  induction l with
  | nil => intro acc; rfl
  | cons c l ih =>
    intro acc
    by_cases hc : 0 < cnt c
    · simp only [List.filterMap_cons, if_pos hc, List.foldl_cons]
      rw [ih]
    · have hacc : ¬ acc.2 < cnt c := by omega
      simp only [List.filterMap_cons, if_neg hc, List.foldl_cons, if_neg hacc]
      rw [ih]

/-- The `Object.entries` fold of `pickDominant` over the present ids equals
the full increasing scan `scanDominant` (ids with count 0 never win the
strict test). -/
lemma pickDominant_clusterEntries (fs : List LabeledVector) :
    pickDominant (clusterEntries fs) = scanDominant (countCluster fs) (maxClusterNat fs + 1) := by
  unfold pickDominant clusterEntries scanDominant
  exact pickDominant_eq_scanAux (countCluster fs) (List.range (maxClusterNat fs + 1)) (-1, 0)

/-- Correctness of the increasing scan: a zero maximum means every count is
zero and the sentinel `-1` is kept; a positive maximum is attained at the
returned id, every id's count is bounded by it, and every *smaller* id has
a strictly smaller count (the first strict winner is kept). -/
lemma scanDominant_spec (cnt : ℕ → ℕ) :
    ∀ n : ℕ,
      ((scanDominant cnt n).2 = 0 → (scanDominant cnt n).1 = -1 ∧ ∀ c < n, cnt c = 0) ∧
      (0 < (scanDominant cnt n).2 → ∃ d : ℕ, (scanDominant cnt n).1 = (d : Int) ∧ d < n ∧
        cnt d = (scanDominant cnt n).2 ∧ (∀ c < n, cnt c ≤ cnt d) ∧ (∀ c < d, cnt c < cnt d)) := by
  intro n
  induction n with
  | zero =>
    constructor
    · intro _; exact ⟨rfl, by omega⟩
    · intro h; simp [scanDominant] at h
  | succ n ih =>
    have hstep : scanDominant cnt (n + 1) =
        (if (scanDominant cnt n).2 < cnt n then ((n : Int), cnt n) else scanDominant cnt n) := by
      unfold scanDominant
      rw [List.range_succ, List.foldl_append, List.foldl_cons, List.foldl_nil]
    by_cases hlt : (scanDominant cnt n).2 < cnt n
    · rw [hstep, if_pos hlt]
      constructor
      · intro h0
        simp only at h0
        omega
      · intro _
        refine ⟨n, rfl, by omega, rfl, ?_, ?_⟩
        · intro c hc
          rcases Nat.lt_succ_iff_lt_or_eq.mp hc with hc | rfl
          · rcases Nat.eq_zero_or_pos (scanDominant cnt n).2 with hz | hp
            · have := (ih.1 hz).2 c hc
              omega
            · obtain ⟨d, _, _, hd, hbound, _⟩ := ih.2 hp
              have := hbound c hc
              omega
          · omega
        · intro c hc
          rcases Nat.eq_zero_or_pos (scanDominant cnt n).2 with hz | hp
          · have := (ih.1 hz).2 c hc
            omega
          · obtain ⟨d, _, _, hd, hbound, _⟩ := ih.2 hp
            have := hbound c hc
            omega
    · rw [hstep, if_neg hlt]
      constructor
      · intro h0
        obtain ⟨h1, h2⟩ := ih.1 h0
        refine ⟨h1, ?_⟩
        intro c hc
        rcases Nat.lt_succ_iff_lt_or_eq.mp hc with hc | rfl
        · exact h2 c hc
        · omega
      · intro hp
        obtain ⟨d, hd1, hd2, hd3, hd4, hd5⟩ := ih.2 hp
        refine ⟨d, hd1, by omega, hd3, ?_, hd5⟩
        intro c hc
        rcases Nat.lt_succ_iff_lt_or_eq.mp hc with hc | rfl
        · exact hd4 c hc
        · omega

/-! ## Chunk counts and labels -/

lemma foldl_max_ge (fs : List LabeledVector) :
    ∀ a : ℕ, a ≤ fs.foldl (fun m f => max m f.cluster.toNat) a ∧
      ∀ f ∈ fs, f.cluster.toNat ≤ fs.foldl (fun m f => max m f.cluster.toNat) a := by
  induction fs with
  | nil => intro a; exact ⟨le_refl a, by simp⟩
  | cons g fs ih =>
    intro a
    obtain ⟨h1, h2⟩ := ih (max a g.cluster.toNat)
    refine ⟨le_trans (le_max_left _ _) h1, ?_⟩
    intro f hf
    rcases List.mem_cons.mp hf with rfl | hf
    · exact le_trans (le_max_right _ _) h1
    · exact h2 f hf

lemma maxClusterNat_bound (fs : List LabeledVector) :
    ∀ f ∈ fs, f.cluster.toNat ≤ maxClusterNat fs :=
  (foldl_max_ge fs 0).2

lemma countCluster_pos_mem (fs : List LabeledVector) (c : ℕ) (h : 0 < countCluster fs c) :
    ∃ f ∈ fs, f.cluster = (c : Int) := by
  unfold countCluster at h
  rw [List.length_pos] at h
  obtain ⟨f, hf⟩ := List.exists_mem_of_ne_nil _ h
  have hmem := List.mem_of_mem_filter hf
  have hp := List.of_mem_filter hf
  exact ⟨f, hmem, by simpa using hp⟩

lemma countCluster_zero_of_gt (fs : List LabeledVector) (c : ℕ)
    (hc : maxClusterNat fs < c) : countCluster fs c = 0 := by
  by_contra h
  obtain ⟨f, hf, hcl⟩ := countCluster_pos_mem fs c (Nat.pos_of_ne_zero h)
  have hb := maxClusterNat_bound fs f hf
  rw [hcl] at hb
  simp at hb
  omega

lemma countCluster_relevant (fs : List LabeledVector) (chunk : TranscriptChunk) (c : ℕ) :
    countCluster (fs.filter
      (fun f => decide (chunk.timestamp.1 ≤ f.time ∧ f.time ≤ chunk.timestamp.2))) c =
      chunkClusterCount fs chunk c := by
  unfold countCluster chunkClusterCount
  rw [List.filter_filter]
  congr 1
  apply List.filter_congr
  intro f _
  by_cases h1 : chunk.timestamp.1 ≤ f.time <;>
    by_cases h2 : f.time ≤ chunk.timestamp.2 <;>
    by_cases h3 : f.cluster = (c : Int) <;>
    simp [h1, h2, h3]

lemma speakerLabelOf_neg : speakerLabelOf (-1) = "Unknown" := rfl

lemma speakerLabelOf_ne_unknown (d : ℕ) : speakerLabelOf (d : Int) ≠ "Unknown" := by
  unfold speakerLabelOf
  rw [if_pos (Int.natCast_nonneg d)]
  intro h
  have hlen := congrArg String.length h
  simp [String.length] at hlen

/-- What `labelChunk` does to the speaker field: either no cluster has any
frame in the chunk's range and the label is `"Unknown"`, or the label names
the id with the strictly highest in-range count, smaller ids having
strictly smaller counts. -/
lemma labelChunk_speaker (fs : List LabeledVector) (chunk : TranscriptChunk) :
    ((labelChunk fs chunk).speaker = "Unknown" ∧ ∀ c : ℕ, chunkClusterCount fs chunk c = 0) ∨
    ∃ d : ℕ, (labelChunk fs chunk).speaker = speakerLabelOf (d : Int) ∧
      0 < chunkClusterCount fs chunk d ∧
      (∀ c : ℕ, chunkClusterCount fs chunk c ≤ chunkClusterCount fs chunk d) ∧
      (∀ c < d, chunkClusterCount fs chunk c < chunkClusterCount fs chunk d) := by
  have hsp : (labelChunk fs chunk).speaker =
      speakerLabelOf (pickDominant (clusterEntries (fs.filter
        (fun f => decide (chunk.timestamp.1 ≤ f.time ∧ f.time ≤ chunk.timestamp.2))))).1 := rfl
  set rel := fs.filter
    (fun f => decide (chunk.timestamp.1 ≤ f.time ∧ f.time ≤ chunk.timestamp.2)) with hrel
  rw [pickDominant_clusterEntries] at hsp
  obtain ⟨hzero, hpos⟩ := scanDominant_spec (countCluster rel) (maxClusterNat rel + 1)
  rcases Nat.eq_zero_or_pos (scanDominant (countCluster rel) (maxClusterNat rel + 1)).2
    with hz | hp
  · obtain ⟨h1, h2⟩ := hzero hz
    left
    refine ⟨by rw [hsp, h1]; exact speakerLabelOf_neg, ?_⟩
    intro c
    rw [← countCluster_relevant fs chunk c, ← hrel]
    by_cases hc : c < maxClusterNat rel + 1
    · exact h2 c hc
    · exact countCluster_zero_of_gt rel c (by omega)
  · obtain ⟨d, hd1, hd2, hd3, hd4, hd5⟩ := hpos hp
    right
    refine ⟨d, by rw [hsp, hd1], ?_, ?_, ?_⟩
    · rw [← countCluster_relevant fs chunk d, ← hrel]
      omega
    · intro c
      rw [← countCluster_relevant fs chunk c, ← countCluster_relevant fs chunk d, ← hrel]
      by_cases hc : c < maxClusterNat rel + 1
      · exact hd4 c hc
      · rw [countCluster_zero_of_gt rel c (by omega)]
        omega
    · intro c hc
      rw [← countCluster_relevant fs chunk c, ← countCluster_relevant fs chunk d, ← hrel]
      exact hd5 c hc

lemma unknown_not_mem_extractUniqueSpeakers (segs : List Segment) :
    "Unknown" ∉ extractUniqueSpeakers segs := by
  intro h
  unfold extractUniqueSpeakers at h
  have h2 := (List.Perm.mem_iff (List.perm_insertionSort _ _)).mp h
  have h3 := List.mem_dedup.mp h2
  have h4 := List.of_mem_filter h3
  simp at h4

lemma chunkClusterCount_pos_mem (fs : List LabeledVector) (chunk : TranscriptChunk) (d : ℕ)
    (h : 0 < chunkClusterCount fs chunk d) : ∃ f ∈ fs, f.cluster = (d : Int) := by
  unfold chunkClusterCount at h
  rw [List.length_pos] at h
  obtain ⟨f, hf⟩ := List.exists_mem_of_ne_nil _ h
  have hmem := List.mem_of_mem_filter hf
  have hp := List.of_mem_filter hf
  simp only [decide_eq_true_eq] at hp
  exact ⟨f, hmem, hp.2.2⟩

lemma chunkClusterCount_zero (fs : List LabeledVector) (chunk : TranscriptChunk) (c : ℕ)
    (h : ∀ f ∈ fs, f.cluster ≠ (c : Int)) : chunkClusterCount fs chunk c = 0 := by
  unfold chunkClusterCount
  rw [List.length_eq_zero, List.filter_eq_nil_iff]
  intro f hf
  simp only [decide_eq_true_eq]
  intro hcon
  exact h f hf hcon.2.2

lemma labelChunk_nil_speaker (chunk : TranscriptChunk) :
    (labelChunk [] chunk).speaker = "Unknown" := rfl

/-- The merging pass introduces no new speaker label. -/
lemma optimizeSegments_speaker_subset (t : ℚ) (l : List Segment) :
    ∀ x ∈ optimizeSegments t l, x.speaker ∈ l.map (fun s => s.speaker) := by
  match l with
  | [] => intro x hx; simp [optimizeSegments] at hx
  | first :: rest =>
    rw [optimizeSegments_eq_loop]
    intro x hx
    rcases optimizeLoop_speaker_subset t rest first x hx with h | h
    · simp [h]
    · simp [h]

/-- Unfolding of the non-busy run of `processDiarization`. -/
lemma processDiarization_not_busy (pick : ℕ → ℕ) (s : SpeakerDiarization)
    (af : List FeatureFrame) (t : Transcription) (hp : s.isProcessing = false) :
    processDiarization pick s af t =
      (Except.ok { text := t.text, segments := successSegments pick s af t,
                   speakers := extractUniqueSpeakers (successSegments pick s af t) },
       { s with isProcessing := false },
       [DiarizationEvent.processingStart,
        updateProgress (1/10) "特性ベクトルを抽出中...",
        updateProgress (3/10) "クラスタリング中...",
        updateProgress (6/10) "セグメントに話者を割り当て中...",
        updateProgress (8/10) "セグメントを最適化中...",
        updateProgress 1 "完了",
        DiarizationEvent.processingComplete
          { text := t.text, segments := successSegments pick s af t,
            speakers := extractUniqueSpeakers (successSegments pick s af t) }]) := by
  rw [processDiarization, if_neg (by simp [hp])]
  rfl

/-- The clamp of `setMaxSpeakers` is at least 1. -/
lemma setMaxSpeakers_pos (s : SpeakerDiarization) (count : ℤ) :
    1 ≤ (setMaxSpeakers s count).maxSpeakers := by
  unfold setMaxSpeakers
  simp only
  omega

/-- Core of the speaker-count invariant: the distinct non-`"Unknown"`
labels after labeling and merging are bounded by the cluster count. -/
lemma distinctSpeakerCount_le (pick : ℕ → ℕ) (fv : List FeatureVector) (k : ℤ)
    (chunks : List TranscriptChunk) (thr : ℚ) (hk : 1 ≤ k) :
    (distinctSpeakerCount (optimizeSegments thr
      (assignSpeakersToSegments (clusterFeatureVectors pick fv k) chunks)) : ℤ) ≤ k := by
  set fs := clusterFeatureVectors pick fv k with hfs
  set segs := assignSpeakersToSegments fs chunks with hsegs
  set out := optimizeSegments thr segs with hout
  have hlab : ∀ x ∈ (out.map (fun s => s.speaker)).filter (fun x => x ≠ "Unknown"),
      ∃ n : ℕ, (n : ℤ) < k ∧ x = speakerLabelOf (n : Int) := by
    intro x hx
    have hxm := List.mem_of_mem_filter hx
    have hxne := List.of_mem_filter hx
    simp only [decide_eq_true_eq] at hxne
    obtain ⟨seg, hsegm, rfl⟩ := List.mem_map.mp hxm
    have hin := optimizeSegments_speaker_subset thr segs seg hsegm
    obtain ⟨seg', hseg'm, hspk⟩ := List.mem_map.mp hin
    obtain ⟨chunk, hchunk, rfl⟩ := List.mem_map.mp hseg'm
    rcases labelChunk_speaker fs chunk with ⟨hu, _⟩ | ⟨d, hd1, hd2, _, _⟩
    · rw [hu] at hspk
      exact absurd hspk.symm hxne
    · obtain ⟨f, hff, hfc⟩ := chunkClusterCount_pos_mem fs chunk d hd2
      rcases clusterFeatureVectors_cluster_range pick fv k hk f (hfs ▸ hff) with hm | ⟨_, hlt⟩
      · rw [hfc] at hm
        omega
      · rw [hfc] at hlt
        exact ⟨d, hlt, by rw [← hspk, hd1]⟩
  have hcard : ((out.map (fun s => s.speaker)).filter
      (fun x => x ≠ "Unknown")).dedup.length ≤ k.toNat := by
    rw [← List.card_toFinset]
    calc ((out.map (fun s => s.speaker)).filter (fun x => x ≠ "Unknown")).toFinset.card
        ≤ ((Finset.range k.toNat).image (fun n : ℕ => speakerLabelOf (n : Int))).card := by
          apply Finset.card_le_card
          intro x hx
          rw [List.mem_toFinset] at hx
          obtain ⟨n, hn, rfl⟩ := hlab x hx
          exact Finset.mem_image.mpr ⟨n, Finset.mem_range.mpr (by omega), rfl⟩
      _ ≤ (Finset.range k.toNat).card := Finset.card_image_le
      _ = k.toNat := Finset.card_range _
  unfold distinctSpeakerCount
  omega

/-!
# Claims
-/

/-- Concrete engine in the busy state, for the C4 witness. -/
def busyEngine : SpeakerDiarization := { newSpeakerDiarization with isProcessing := true }

/-- A one-frame active feature history (scaled RMS `= 1 > 0.1`):
time 0, spectral centroid 0, RMS 1/100, flux 0, zero-crossing rate 0,
all band energies 0. -/
def witnessFrame : FeatureFrame := ⟨0, ⟨0, 1/100, 0, 0, ⟨0, 0, 0⟩⟩⟩

/-- A one-chunk transcription. -/
def witnessTranscription : Transcription := ⟨"hi", [⟨"hi", (0, 1)⟩]⟩

/-- C4: invoking `processDiarization` while the in-flight flag is set fails
with the busy error, leaves the engine state unchanged, and emits no
notification at all. -/
theorem busy_invocation_rejected (pick : ℕ → ℕ) (s : SpeakerDiarization)
    (af : List FeatureFrame) (t : Transcription) (h : s.isProcessing = true) :
    processDiarization pick s af t = (Except.error busyMessage, s, []) := by
  rw [processDiarization, if_pos h]

/-- Witness for C4 at a concrete busy engine. -/
theorem busy_invocation_rejected_witness :
    processDiarization (fun _ => 0) busyEngine [witnessFrame] witnessTranscription =
      (Except.error busyMessage, busyEngine, []) :=
  busy_invocation_rejected (fun _ => 0) busyEngine [witnessFrame] witnessTranscription rfl

/-- C3: a non-busy run emits exactly the five progress milestones
0.10, 0.30, 0.60, 0.80, 1.00, each with its phase message, in this order —
for every input, including histories with zero active frames. -/
theorem progress_milestones_exact (pick : ℕ → ℕ) (s : SpeakerDiarization)
    (af : List FeatureFrame) (t : Transcription) (hp : s.isProcessing = false) :
    progressEvents (processDiarization pick s af t).2.2 =
      [(1/10, "特性ベクトルを抽出中..."), (3/10, "クラスタリング中..."),
       (3/5, "セグメントに話者を割り当て中..."), (4/5, "セグメントを最適化中..."),
       (1, "完了")] := by
  rw [processDiarization_not_busy pick s af t hp]
  simp only [progressEvents, updateProgress]
  norm_num

/-- Witness for C3 on a zero-active-frame history. -/
theorem progress_milestones_exact_witness :
    progressEvents (processDiarization (fun _ => 0) newSpeakerDiarization []
        witnessTranscription).2.2 =
      [(1/10, "特性ベクトルを抽出中..."), (3/10, "クラスタリング中..."),
       (3/5, "セグメントに話者を割り当て中..."), (4/5, "セグメントを最適化中..."),
       (1, "完了")] :=
  progress_milestones_exact (fun _ => 0) newSpeakerDiarization [] witnessTranscription rfl

/-- C10: a non-busy run succeeds, and every result it can return (also the
one announced in its completion notification) carries exactly the input
transcription's text, unchanged. -/
theorem result_text_unchanged (pick : ℕ → ℕ) (s : SpeakerDiarization)
    (af : List FeatureFrame) (t : Transcription)
    (hp : s.isProcessing = false) :
    (∀ r : DiarizationResult, (processDiarization pick s af t).1 = Except.ok r →
      r.text = t.text ∧
        DiarizationEvent.processingComplete r ∈ (processDiarization pick s af t).2.2) ∧
    ∃ r : DiarizationResult, (processDiarization pick s af t).1 = Except.ok r := by
  rw [processDiarization_not_busy pick s af t hp]
  constructor
  · intro r hr
    have hr2 : Except.ok ({ text := t.text, segments := successSegments pick s af t,
                            speakers := extractUniqueSpeakers (successSegments pick s af t) } :
        DiarizationResult) = Except.ok r := hr
    injection hr2 with h2
    subst h2
    exact ⟨rfl, by simp⟩
  · exact ⟨_, rfl⟩

/-- Witness for C10 at a concrete input. -/
theorem result_text_unchanged_witness :
    (∀ r : DiarizationResult,
      (processDiarization (fun _ => 0) newSpeakerDiarization [witnessFrame]
          witnessTranscription).1 = Except.ok r →
      r.text = witnessTranscription.text ∧
        DiarizationEvent.processingComplete r ∈
          (processDiarization (fun _ => 0) newSpeakerDiarization [witnessFrame]
            witnessTranscription).2.2) ∧
    ∃ r : DiarizationResult,
      (processDiarization (fun _ => 0) newSpeakerDiarization [witnessFrame]
          witnessTranscription).1 = Except.ok r :=
  result_text_unchanged (fun _ => 0) newSpeakerDiarization [witnessFrame]
    witnessTranscription rfl

/-- C6: the merging pass is exactly the single left-to-right traversal
`optimizeLoop`: each segment after the first merges into the immediately
preceding kept segment precisely when `mergeCond` holds (same speaker and
gap at most the threshold), a merge being `mergeInto` (end extended, text
appended after one space), and otherwise starts a new kept segment. -/
theorem optimize_single_pass (t : ℚ) (segments : List Segment) :
    optimizeSegments t segments =
      (match segments with
       | [] => []
       | first :: rest => optimizeLoop t first rest) := by
  match segments with
  | [] => rfl
  | first :: rest => exact optimizeSegments_eq_loop t first rest

/-- C7: the merging pass is idempotent — applied to its own output it
changes nothing, because no adjacent kept pair still satisfies the merge
condition. -/
theorem optimize_idempotent (t : ℚ) (s : List Segment) :
    optimizeSegments t (optimizeSegments t s) = optimizeSegments t s := by
  match s with
  | [] => rfl
  | first :: rest =>
    rw [optimizeSegments_eq_loop t first rest]
    obtain ⟨s0, l0, heq, _, _⟩ := optimizeLoop_head t rest first
    rw [heq, optimizeSegments_eq_loop t s0 l0]
    have hch := optimizeLoop_chain t rest first
    rw [heq] at hch
    exact optimizeLoop_fixpoint t l0 s0 hch

/-- C8: on a nonempty input with `k ≥ 1`, k-means stops within the
100-iteration cap and assigns every input vector exactly one cluster id in
`[0, k)`. -/
theorem kmeans_terminates_in_range (pick : ℕ → ℕ) (vectors : List (List ℚ)) (k : ℕ)
    (hv : vectors ≠ []) (hk : 1 ≤ k) :
    (kMeansRun pick vectors k 100).2.2 ≤ 100 ∧
    (kMeansClustering pick vectors k).assignments.length = vectors.length ∧
    ∀ a ∈ (kMeansClustering pick vectors k).assignments, 0 ≤ a ∧ a < (k : Int) := by
  obtain ⟨h1, _, h3, h4⟩ := kMeansRun_spec pick vectors k hv hk
  exact ⟨h1, h3, h4⟩

/-- Witness for C8 on three one-dimensional vectors and `k = 2`. -/
theorem kmeans_terminates_in_range_witness :
    ([[0], [10], [11]] : List (List ℚ)) ≠ [] ∧ 1 ≤ 2 ∧
    ((kMeansRun (fun _ => 0) [[0], [10], [11]] 2 100).2.2 ≤ 100 ∧
     (kMeansClustering (fun _ => 0) [[0], [10], [11]] 2).assignments.length =
       ([[0], [10], [11]] : List (List ℚ)).length ∧
     ∀ a ∈ (kMeansClustering (fun _ => 0) [[0], [10], [11]] 2).assignments,
       0 ≤ a ∧ a < (2 : Int)) :=
  ⟨by decide, by decide,
   kmeans_terminates_in_range (fun _ => 0) [[0], [10], [11]] 2 (by decide) (by decide)⟩

/-- C9: with no frame above the silence threshold, clustering is skipped
(`clusterFeatureVectors` returns `[]`), the run still succeeds, every
result segment's speaker is `"Unknown"`, and `"Unknown"` is not in the
speakers list. -/
theorem zero_active_frames_unknown (pick : ℕ → ℕ) (s : SpeakerDiarization)
    (af : List FeatureFrame) (t : Transcription)
    (hp : s.isProcessing = false)
    (hsil : ∀ f ∈ af, f.features.rms * 100 ≤ 1/10) :
    clusterFeatureVectors pick (extractFeatureVectors af) s.maxSpeakers = [] ∧
    ∃ r : DiarizationResult, (processDiarization pick s af t).1 = Except.ok r ∧
      (∀ seg ∈ r.segments, seg.speaker = "Unknown") ∧ "Unknown" ∉ r.speakers := by
  have hcl : clusterFeatureVectors pick (extractFeatureVectors af) s.maxSpeakers = [] := by
    have hfil : (extractFeatureVectors af).filter
        (fun v => decide (1/10 < v.vector.getD 1 0)) = [] := by
      rw [List.filter_eq_nil_iff]
      intro v hv
      obtain ⟨frame, hfr, rfl⟩ := List.mem_map.mp hv
      simp only [decide_eq_true_eq, not_lt, List.getD_cons_succ, List.getD_cons_zero]
      exact hsil frame hfr
    rw [clusterFeatureVectors]
    simp only [hfil, List.length_nil]
    rfl
  refine ⟨hcl, ?_⟩
  have hseg : ∀ seg ∈ successSegments pick s af t, seg.speaker = "Unknown" := by
    intro seg hsm
    unfold successSegments at hsm
    rw [hcl] at hsm
    have hsub := optimizeSegments_speaker_subset s.mergeThreshold
      (assignSpeakersToSegments [] t.chunks) seg hsm
    obtain ⟨seg', hseg'm, hspk⟩ := List.mem_map.mp hsub
    obtain ⟨chunk, _, rfl⟩ := List.mem_map.mp hseg'm
    rw [← hspk, labelChunk_nil_speaker]
  rw [processDiarization_not_busy pick s af t hp]
  exact ⟨_, rfl, hseg, unknown_not_mem_extractUniqueSpeakers _⟩

/-- Witness for C9 on an empty (hence zero-active) feature history. -/
theorem zero_active_frames_unknown_witness :
    clusterFeatureVectors (fun _ => 0) (extractFeatureVectors [])
      newSpeakerDiarization.maxSpeakers = [] ∧
    ∃ r : DiarizationResult,
      (processDiarization (fun _ => 0) newSpeakerDiarization [] witnessTranscription).1 =
        Except.ok r ∧
      (∀ seg ∈ r.segments, seg.speaker = "Unknown") ∧ "Unknown" ∉ r.speakers :=
  zero_active_frames_unknown (fun _ => 0) newSpeakerDiarization [] witnessTranscription
    rfl (by simp)

/-- C2: after configuring the maximum through `setMaxSpeakers`, a non-busy
run succeeds and the number of distinct non-`"Unknown"` speaker labels in
its segments never exceeds the configured maximum
(`(setMaxSpeakers s0 count).maxSpeakers = max 1 (min 10 count)`). -/
theorem max_speakers_invariant (pick : ℕ → ℕ) (s0 : SpeakerDiarization) (count : ℤ)
    (af : List FeatureFrame) (t : Transcription)
    (hp : (setMaxSpeakers s0 count).isProcessing = false) :
    ∃ r : DiarizationResult,
      (processDiarization pick (setMaxSpeakers s0 count) af t).1 = Except.ok r ∧
      (distinctSpeakerCount r.segments : ℤ) ≤ (setMaxSpeakers s0 count).maxSpeakers := by
  rw [processDiarization_not_busy _ _ _ _ hp]
  refine ⟨_, rfl, ?_⟩
  exact distinctSpeakerCount_le pick (extractFeatureVectors af)
    (setMaxSpeakers s0 count).maxSpeakers t.chunks (setMaxSpeakers s0 count).mergeThreshold
    (setMaxSpeakers_pos s0 count)

/-- Witness for C2: one active frame, maximum configured to 2. -/
theorem max_speakers_invariant_witness :
    ∃ r : DiarizationResult,
      (processDiarization (fun _ => 0) (setMaxSpeakers newSpeakerDiarization 2)
        [witnessFrame] witnessTranscription).1 = Except.ok r ∧
      (distinctSpeakerCount r.segments : ℤ) ≤
        (setMaxSpeakers newSpeakerDiarization 2).maxSpeakers :=
  max_speakers_invariant (fun _ => 0) newSpeakerDiarization 2 [witnessFrame]
    witnessTranscription rfl

/-- C5: each transcript chunk yields exactly one segment preserving its
text, start and end; a chunk with no counted in-range frame gets
`"Unknown"`; and whenever some id `d` has a positive count that no id
beats and that every smaller id is strictly below (the first strict
maximum in increasing id order), the chunk's speaker is the letter
`'A' + (d mod 26)`. -/
theorem chunk_labeling_dominant (fs : List LabeledVector) (chunks : List TranscriptChunk)
    (i : ℕ) (hi : i < chunks.length) :
    (assignSpeakersToSegments fs chunks).length = chunks.length ∧
    ((assignSpeakersToSegments fs chunks).getD i dummySegment).text =
      (chunks.getD i dummyChunk).text ∧
    ((assignSpeakersToSegments fs chunks).getD i dummySegment).start =
      (chunks.getD i dummyChunk).timestamp.1 ∧
    ((assignSpeakersToSegments fs chunks).getD i dummySegment).«end» =
      (chunks.getD i dummyChunk).timestamp.2 ∧
    ((∀ c : ℕ, chunkClusterCount fs (chunks.getD i dummyChunk) c = 0) →
      ((assignSpeakersToSegments fs chunks).getD i dummySegment).speaker = "Unknown") ∧
    (∀ d : ℕ, 0 < chunkClusterCount fs (chunks.getD i dummyChunk) d →
      (∀ c : ℕ, chunkClusterCount fs (chunks.getD i dummyChunk) c ≤
        chunkClusterCount fs (chunks.getD i dummyChunk) d) →
      (∀ c < d, chunkClusterCount fs (chunks.getD i dummyChunk) c <
        chunkClusterCount fs (chunks.getD i dummyChunk) d) →
      ((assignSpeakersToSegments fs chunks).getD i dummySegment).speaker =
        String.mk [Char.ofNat (65 + d % 26)]) := by
  have hlen : (assignSpeakersToSegments fs chunks).length = chunks.length := by
    simp [assignSpeakersToSegments]
  have hilt : i < (assignSpeakersToSegments fs chunks).length := by omega
  have hgd : (assignSpeakersToSegments fs chunks).getD i dummySegment =
      labelChunk fs (chunks.getD i dummyChunk) := by
    rw [List.getD_eq_getElem _ _ hilt, List.getD_eq_getElem _ _ hi]
    simp [assignSpeakersToSegments]
  rcases labelChunk_speaker fs (chunks.getD i dummyChunk) with
    ⟨hu, hz⟩ | ⟨d0, hd1, hd2, hd3, hd4⟩
  · refine ⟨hlen, by rw [hgd]; rfl, by rw [hgd]; rfl, by rw [hgd]; rfl, ?_, ?_⟩
    · intro _
      rw [hgd]
      exact hu
    · intro d hpos _ _
      rw [hz d] at hpos
      exact absurd hpos (by omega)
  · refine ⟨hlen, by rw [hgd]; rfl, by rw [hgd]; rfl, by rw [hgd]; rfl, ?_, ?_⟩
    · intro hall
      rw [hall d0] at hd2
      exact absurd hd2 (by omega)
    · intro d hpos hmax hless
      have hdeq : d = d0 := by
        by_contra hne
        rcases Nat.lt_or_ge d d0 with hlt | hge
        · have h1 := hd4 d hlt
          have h2 := hmax d0
          omega
        · have hlt0 : d0 < d := by omega
          have h1 := hless d0 hlt0
          have h2 := hd3 d
          omega
      subst hdeq
      rw [hgd, hd1]
      unfold speakerLabelOf
      rw [if_pos (Int.natCast_nonneg d)]
      have hmod : ((d : Int) % 26).toNat = d % 26 := by omega
      rw [hmod]

/-- Labeled frames with a constructed tie: clusters 0 and 1 each have one
frame inside `[0, 2]`, plus one silent frame. -/
def tieFrames : List LabeledVector := [⟨0, [0], 1⟩, ⟨1, [0], 0⟩, ⟨5, [0], -1⟩]

/-- The chunk overlapping the tie. -/
def tieChunk : TranscriptChunk := ⟨"overlap", (0, 2)⟩

/-- Witness for C5 at the constructed tie: the lowest id (0, letter "A")
wins. -/
theorem chunk_labeling_dominant_witness :
    ((assignSpeakersToSegments tieFrames [tieChunk]).getD 0 dummySegment).speaker =
      String.mk [Char.ofNat (65 + 0 % 26)] := by
  have h := chunk_labeling_dominant tieFrames [tieChunk] 0 (by decide)
  rw [show ([tieChunk].getD 0 dummyChunk) = tieChunk from rfl] at h
  refine h.2.2.2.2.2 0 ?_ ?_ ?_
  · decide
  · intro c
    match c with
    | 0 => decide
    | 1 => decide
    | n + 2 =>
      have hz : chunkClusterCount tieFrames tieChunk (n + 2) = 0 := by
        apply chunkClusterCount_zero
        intro f hf
        fin_cases hf <;>
          · intro heq
            simp only [tieFrames] at heq
            omega
      rw [hz]
      exact Nat.zero_le _
  · intro c hc
    exact absurd hc (Nat.not_lt_zero c)

/-- C1 counterexample: run one frame (dB spectrum `[0]`), call
`resetAudioFeatures()`, then compute the flux of the frame `[20]`.  The
previous-spectrum slot survives the reset (it holds the zero spectrum
seeded by the first call), so the first flux after the reset is
`√((10^(20/20) − 10^(0/20))²) = 9 ≠ 0` — the claim's "returns exactly 0
after resetFeatures()" fails. -/
theorem flux_after_reset_nonzero :
    (processFluxFrame (resetAudioFeatures (processFluxFrame newAudioProcessor [0]).2)
      [20]).1 ≠ 0 := by
  have h20 : dbToLinear 20 = 10 := by
    unfold dbToLinear
    rw [show ((20 : ℝ) / 20) = 1 by norm_num, Real.rpow_one]
  have h0 : dbToLinear 0 = 1 := by
    unfold dbToLinear
    rw [show ((0 : ℝ) / 20) = 0 by norm_num, Real.rpow_zero]
  have h2 : (processFluxFrame (resetAudioFeatures (processFluxFrame newAudioProcessor [0]).2)
      [20]).1 = Real.sqrt ((dbToLinear 20 - dbToLinear 0) ^ 2 + 0) := by
    show (calculateSpectralFlux (some [(0 : ℝ)]) [20]).1 = _
    simp [calculateSpectralFlux]
  rw [h2, h20, h0]
  rw [show ((10 : ℝ) - 1) ^ 2 + 0 = 81 by norm_num]
  exact ne_of_gt (Real.sqrt_pos.mpr (by norm_num))

/-- C1 (amended): the first flux computation when no previous spectrum is
retained (`prevFreqData` unset, as after construction) returns exactly 0
and seeds the single-slot history with an all-zero spectrum of the frame's
length; `resetAudioFeatures()` clears only the accumulated feature series
and leaves the previous-spectrum slot untouched. -/
theorem flux_first_frame_seeds_zero (p q : AudioProcessor) (freqData : List ℝ)
    (h : p.prevFreqData = none) :
    (processFluxFrame p freqData).1 = 0 ∧
    (processFluxFrame p freqData).2.prevFreqData =
      some (List.replicate freqData.length 0) ∧
    (resetAudioFeatures q).prevFreqData = q.prevFreqData ∧
    (resetAudioFeatures q).audioFeatures = [] := by
  refine ⟨?_, ?_, rfl, rfl⟩ <;>
    simp [processFluxFrame, calculateSpectralFlux, h]

/-- Witness for the amended C1 at a fresh processor and a one-bin frame. -/
theorem flux_first_frame_seeds_zero_witness :
    (processFluxFrame newAudioProcessor [3]).1 = 0 ∧
    (processFluxFrame newAudioProcessor [3]).2.prevFreqData =
      some (List.replicate ([3] : List ℝ).length 0) ∧
    (resetAudioFeatures (processFluxFrame newAudioProcessor [0]).2).prevFreqData =
      (processFluxFrame newAudioProcessor [0]).2.prevFreqData ∧
    (resetAudioFeatures (processFluxFrame newAudioProcessor [0]).2).audioFeatures = [] :=
  flux_first_frame_seeds_zero newAudioProcessor
    (processFluxFrame newAudioProcessor [0]).2 [3] rfl
